import Mathlib

/-!
Verification development for the docu-crawler repository.

Shallow embedding of the crawl engine and HTML-to-Markdown conversion
pieces of the code base:

* `retryGo` / `retry_on_http_error`   — src/utils/retry.py, retry_on_http_error
* `readChunks` / `fetchBody` / `fetch_url_with_retry`
                                      — src/doc_crawler.py, DocuCrawler._fetch_url_with_retry
* `getRobotsParser` / `can_fetch`     — src/utils/robots.py, RobotsTxtChecker
* `stepOnce` / `crawlRun`             — src/doc_crawler.py, DocuCrawler.crawl
* `process_page`                      — src/doc_crawler.py, DocuCrawler.process_page
* `process_tables_headed`             — src/processors/html_processor.py, _process_tables
* `extract_links`                     — src/processors/html_processor.py, extract_links
* `deriveTitle`                       — src/processors/html_processor.py, extract_text (title part)
* `fetch_urls`                        — src/utils/sitemap.py, SitemapParser.fetch_urls

Machine integers do not occur (sizes are unbounded Python ints); byte
strings are modelled as `List Nat`, wall-clock time and logging are not
modelled (they never influence the returned values under scrutiny).
-/

/-! ### Retry wrapper (src/utils/retry.py, retry_on_http_error) -/

/-- Errors that `DocuCrawler._fetch_url_with_retry` can raise:
`ContentTooLargeError` and `requests.exceptions.RequestException`. -/
inductive FetchError where
  | contentTooLarge
  | requestError
deriving DecidableEq, Repr

/-- The observable part of a `requests.Response` as used by the retry wrapper
and the crawl loop: its HTTP status code and its fully-read body bytes. -/
structure HttpResponse where
  status : Nat
  content : List Nat
deriving DecidableEq, Repr

/-- Outcome of one call of the wrapped function: it either returns a response
object or raises an exception. -/
inductive CallOut where
  | resp (r : HttpResponse)
  | exc (e : FetchError)
deriving DecidableEq, Repr

/-- Outcome of the retry wrapper as a whole.  `internalError` models the
`raise RuntimeError("Unexpected error in retry decorator")` line that the
source marks as unreachable. -/
inductive RetryOut where
  | returned (r : HttpResponse)
  | raised (e : FetchError)
  | internalError
deriving DecidableEq, Repr

/-- `retry_status_codes` default of `retry_on_http_error`
(src/utils/retry.py line 61). -/
def defaultRetryCodes : List Nat := [500, 502, 503, 504, 429]

/-- Body of the `for attempt in range(max_retries + 1)` loop of
`retry_on_http_error` (src/utils/retry.py lines 79-109).  `calls i` is the
outcome of the `i`-th invocation of the wrapped function; the fuel argument
is the number of loop iterations still available (`max_retries + 1 - attempt`
at the top level).  Sleeping and the `Retry-After` header only influence the
delay between attempts, which has no bearing on the returned value and is not
modelled. -/
def retryGo (codes : List Nat) (maxRetries : Nat) (calls : Nat → CallOut) :
    Nat → Nat → RetryOut
  | _, 0 => RetryOut.internalError
  | attempt, fuel + 1 =>
    match calls attempt with
    | CallOut.resp r =>
      if r.status ∈ codes then
        if attempt < maxRetries then retryGo codes maxRetries calls (attempt + 1) fuel
        else RetryOut.returned r
      else RetryOut.returned r
    | CallOut.exc e =>
      if attempt < maxRetries then retryGo codes maxRetries calls (attempt + 1) fuel
      else RetryOut.raised e

/-- `retry_on_http_error(max_retries, retry_status_codes, ...)` applied to a
function whose successive call outcomes are `calls 0, calls 1, ...`. -/
def retry_on_http_error (codes : List Nat) (maxRetries : Nat)
    (calls : Nat → CallOut) : RetryOut :=
  retryGo codes maxRetries calls 0 (maxRetries + 1)

/-! ### Streamed fetch with size guard (src/doc_crawler.py, _fetch_url_with_retry) -/

/-- The `Content-Length` response header as seen by `_fetch_url_with_retry`:
absent, present but not parseable by `int(...)` (the `ValueError` is swallowed),
or a parsed integer. -/
inductive ClHeader where
  | absent
  | nonNumeric
  | num (n : Int)
deriving DecidableEq, Repr

/-- A raw streamed HTTP response before the body has been read: status code,
`Content-Length` header, the chunk sequence produced by `iter_content`, and
whether the iteration raises a (non-size) exception after yielding those
chunks. -/
structure RawResponse where
  status : Nat
  clHeader : ClHeader
  stream : List (List Nat)
  streamFails : Bool
deriving DecidableEq, Repr

/-- The `for chunk in response.iter_content(...)` accumulation loop
(src/doc_crawler.py lines 391-395): append each chunk and raise
`ContentTooLargeError` as soon as the accumulated length exceeds the limit. -/
def readChunks (maxLen : Nat) : List (List Nat) → List Nat → Except FetchError (List Nat)
  | [], acc => Except.ok acc
  | c :: cs, acc =>
    let acc2 := acc ++ c
    if maxLen < acc2.length then Except.error FetchError.contentTooLarge
    else readChunks maxLen cs acc2

/-- The streaming part of `_fetch_url_with_retry`: read all chunks under the
size guard; a non-size exception during iteration is re-raised as a
`requests.exceptions.RequestException` (src/doc_crawler.py lines 399-403);
otherwise the response is returned with its accumulated body installed. -/
def fetchStream (maxLen : Nat) (r : RawResponse) : Except FetchError HttpResponse :=
  match readChunks maxLen r.stream [] with
  | Except.error e => Except.error e
  | Except.ok content =>
    if r.streamFails then Except.error FetchError.requestError
    else Except.ok { status := r.status, content := content }

/-- Undecorated body of `DocuCrawler._fetch_url_with_retry`
(src/doc_crawler.py lines 377-405): first the untrusted `Content-Length`
header check (skipped when the header is absent or not numeric), then the
chunk-by-chunk streaming size guard. -/
def fetchBody (maxLen : Nat) (r : RawResponse) : Except FetchError HttpResponse :=
  match r.clHeader with
  | ClHeader.num n =>
    if (maxLen : Int) < n then Except.error FetchError.contentTooLarge
    else fetchStream maxLen r
  | _ => fetchStream maxLen r

/-- `DocuCrawler._fetch_url_with_retry` as decorated with
`@retry_on_http_error(max_retries=3, initial_delay=1.0, backoff_factor=2.0)`
(src/doc_crawler.py line 362).  `raws i` is the raw response produced by the
`i`-th attempted GET. -/
def fetch_url_with_retry (maxLen : Nat) (raws : Nat → RawResponse) : RetryOut :=
  retry_on_http_error defaultRetryCodes 3 (fun i =>
    match fetchBody maxLen (raws i) with
    | Except.ok resp => CallOut.resp resp
    | Except.error e => CallOut.exc e)

/-- `DEFAULT_MAX_CONTENT_LENGTH = 10 * 1024 * 1024` (src/doc_crawler.py line 23). -/
def DEFAULT_MAX_CONTENT_LENGTH : Nat := 10 * 1024 * 1024

/-! ### robots.txt checker (src/utils/robots.py) -/

/-- The state of a CPython `urllib.robotparser.RobotFileParser` that matters to
`can_fetch`: the `disallow_all` / `allow_all` flags, whether `last_checked` has
been set (it is `0` on a fresh parser and is set by `parse` via `modified`),
and the rule lookup performed over the parsed entries.  The robots.txt grammar
itself is abstracted into the `ruleAllow` lookup function, which `can_fetch`
only consults after the `last_checked` guard. -/
structure RFParser where
  disallowAll : Bool
  allowAll : Bool
  lastChecked : Bool
  ruleAllow : String → String → Bool

/-- `RobotFileParser()` freshly constructed: both flags false, `last_checked = 0`,
no entries (an entry lookup on no entries grants access, hence the `true`;
it is unreachable while `lastChecked` is false). -/
def freshRFParser : RFParser :=
  { disallowAll := false, allowAll := false, lastChecked := false,
    ruleAllow := fun _ _ => true }

/-- CPython `RobotFileParser.can_fetch`: deny if `disallow_all`, allow if
`allow_all`, and — quoting its source — "until the robots.txt file has been
read or found not to exist, we must assume that no url is allowable": deny
whenever `last_checked` is unset; otherwise consult the parsed entries. -/
def rfpCanFetch (p : RFParser) (ua url : String) : Bool :=
  if p.disallowAll then false
  else if p.allowAll then true
  else if !p.lastChecked then false
  else p.ruleAllow ua url

/-- Outcome of the `requests.get(robots_url, ...)` performed by
`RobotsTxtChecker._get_parser`: an HTTP response with a status code (whose
body, when the status is 200, parses into a rule lookup), or a raised
network/timeout exception. -/
inductive RobotsFetchResult where
  | success (status : Nat) (rules : String → String → Bool)
  | exc

/-- `RobotsTxtChecker._get_parser` (src/utils/robots.py lines 46-100) on a
cache miss: a fresh `RobotFileParser` is created; only on HTTP 200 is
`parser.parse(lines)` called (setting `last_checked` and the entries);
on 401/403 the code logs a warning and keeps the fresh parser, and any
exception from the GET is swallowed, likewise keeping the fresh parser. -/
def getRobotsParser (res : RobotsFetchResult) : RFParser :=
  match res with
  | RobotsFetchResult.success status rules =>
    if status = 401 ∨ status = 403 then freshRFParser
    else if status = 200 then { freshRFParser with lastChecked := true, ruleAllow := rules }
    else freshRFParser
  | RobotsFetchResult.exc => freshRFParser

/-- `RobotsTxtChecker.can_fetch` (src/utils/robots.py lines 102-126) for a URL
of a domain whose robots.txt fetch had outcome `res`: it delegates to the
cached parser's `can_fetch`.  The surrounding `try/except` returns `True` only
when evaluation itself raises, which the embedded evaluation never does. -/
def can_fetch (res : RobotsFetchResult) (ua url : String) : Bool :=
  rfpCanFetch (getRobotsParser res) ua url

/-! ### Substring utilities (Python `in`, `str.split(sep)[0]`, `str.replace`) -/

/-- Python list/str prefix test: `startsList pat s` is true iff `pat` is a
prefix of `s` (character lists). -/
def startsList : List Char → List Char → Bool
  | [], _ => true
  | _ :: _, [] => false
  | a :: pa, b :: sb => if a = b then startsList pa sb else false

/-- Python `pat in s` on character lists: `pat` occurs as a contiguous
substring of `s`. -/
def occursIn (pat : List Char) : List Char → Bool
  | [] => startsList pat []
  | c :: t => startsList pat (c :: t) || occursIn pat t

/-- The characters of `s` strictly before the first occurrence of `pat`
(all of `s` if `pat` does not occur): this is Python's `s.split(pat)[0]`. -/
def beforeFirst : List Char → List Char → List Char
  | [], _ => []
  | c :: t, pat => if startsList pat (c :: t) then [] else c :: beforeFirst t pat

/-- The characters of `s` strictly after the first occurrence of `pat`
(`none` when `pat` does not occur). -/
def afterFirst (pat : List Char) : List Char → Option (List Char)
  | [] => if startsList pat [] then some [] else none
  | c :: t =>
    if startsList pat (c :: t) then some (List.drop pat.length (c :: t))
    else afterFirst pat t

/-- Python `str.strip()` with no argument: drop leading and trailing
whitespace. -/
def pyStrip (s : String) : String :=
  String.mk (((s.toList.dropWhile Char.isWhitespace).reverse.dropWhile Char.isWhitespace).reverse)

/-- Python `str.lower()` restricted to the ASCII range, which is all the
crawler ever lowercases (HTTP header values). -/
def pyLower (s : String) : String := String.mk (s.toList.map Char.toLower)

/-! ### Title derivation (src/processors/html_processor.py, extract_text lines 122-126) -/

def pipeSep : List Char := (" | ").toList

def dashSep : List Char := (" - ").toList

/-- The title trimming of `extract_text`: strip the document title, then
`if ' | ' in title: title = title.split(' | ')[0].strip()`
`elif ' - ' in title: title = title.split(' - ')[0].strip()`. -/
def deriveTitle (raw : String) : String :=
  let t := pyStrip raw
  if occursIn pipeSep t.toList then pyStrip (String.mk (beforeFirst t.toList pipeSep))
  else if occursIn dashSep t.toList then pyStrip (String.mk (beforeFirst t.toList dashSep))
  else t

/-- Characters before the first position at which either separator starts,
scanning left to right; `none` when neither separator occurs. -/
def firstSepPre : List Char → Option (List Char)
  | [] => none
  | c :: t =>
    if startsList pipeSep (c :: t) || startsList dashSep (c :: t) then some []
    else (firstSepPre t).map (fun pre => c :: pre)

/-- Title derivation as the specification words it ("keep only the text before
the first occurrence" of whichever of the two separators occurs first), for
comparison against `deriveTitle`. -/
def deriveTitleSpec (raw : String) : String :=
  let t := pyStrip raw
  match firstSepPre t.toList with
  | some pre => pyStrip (String.mk pre)
  | none => t

/-! ### Table conversion (src/processors/html_processor.py, _process_tables lines 579-618) -/

/-- Per-cell text normalisation of `_process_tables`: the rendered cell
markdown is stripped, then `.replace('|', '\\|').replace('\n', ' ')`. -/
def escapeCellChars : List Char → List Char
  | [] => []
  | c :: t =>
    if c = '|' then '\\' :: '|' :: escapeCellChars t
    else if c = '\n' then ' ' :: escapeCellChars t
    else c :: escapeCellChars t

def escapeCell (s : String) : String := String.mk (escapeCellChars (pyStrip s).toList)

/-- `'| ' + ' | '.join(cell_texts) + ' |'`. -/
def renderRow (cells : List String) : String :=
  "| " ++ String.intercalate " | " cells ++ " |"

/-- Row-length adjustment of `_process_tables` (lines 614-615):
`if header_cols and len(cell_texts) != header_cols:
cell_texts.extend([''] * (header_cols - len(cell_texts)))`.
`header_cols` is `None` (here `none`) when there are no header cells, and the
Python list multiplication by a negative count produces the empty list, which
truncated subtraction mirrors exactly: rows longer than the header are left
unchanged. -/
def padCells (headerCols : Option Nat) (cells : List String) : List String :=
  match headerCols with
  | none => cells
  | some n =>
    if n ≠ 0 ∧ cells.length ≠ n then cells ++ List.replicate (n - cells.length) ""
    else cells

/-- The `thead`/`tbody` branch of `_process_tables` (lines 587-618) for a table
with an explicit `thead` (whose `th` cells render to `headerCells`) and a
`tbody` (whose rows render to `bodyRows`): emit header and `---` separator rows
only when header cells exist, skip cell-less rows, and adjust each data row
with `padCells`. -/
def process_tables_headed (headerCells : List String) (bodyRows : List (List String)) :
    List String :=
  let hdr := headerCells.map escapeCell
  let headerPart :=
    if headerCells.isEmpty then []
    else [renderRow hdr, renderRow (List.replicate headerCells.length "---")]
  let headerCols : Option Nat :=
    if headerCells.isEmpty then none else some headerCells.length
  let dataRows := (bodyRows.filter (fun row => !row.isEmpty)).map
    (fun row => renderRow (padCells headerCols (row.map escapeCell)))
  headerPart ++ dataRows

/-! ### Link extraction (src/processors/html_processor.py, extract_links lines 697-730) -/

/-- The skip test of `extract_links`: fragment-only, `javascript:`, `mailto:`
and `tel:` hrefs are dropped before resolution. -/
def skipHref (href : String) : Bool :=
  startsList ("#").toList href.toList || startsList ("javascript:").toList href.toList ||
  startsList ("mailto:").toList href.toList || startsList ("tel:").toList href.toList

/-- `urllib.parse.urldefrag(u)[0]`: everything before the first `#`. -/
def urldefragFirst (s : String) : String :=
  String.mk (s.toList.takeWhile (fun c => c ≠ '#'))

/-- Characters of `l` up to and including the last `/` (empty if none). -/
def dropLastSeg (l : List Char) : List Char :=
  (l.reverse.dropWhile (fun c => c ≠ '/')).reverse

/-- `scheme://host` of an absolute URL (the URL itself when it carries no
`://`). -/
def urlOrigin (base : String) : String :=
  match afterFirst ("://").toList base.toList with
  | some rest =>
    String.mk (beforeFirst base.toList ("://").toList) ++ "://" ++
      String.mk (rest.takeWhile (fun c => c ≠ '/'))
  | none => base

/-- `urllib.parse.urljoin(base, href)` restricted to the base/href shapes the
crawler feeds it: an href carrying a scheme separator is absolute; a
root-relative href replaces the base path; any other href replaces the last
path segment of the base.  Dot-segment normalisation, query-only and
protocol-relative references are outside the modelled fragment. -/
def urljoinModel (base href : String) : String :=
  if occursIn ("://").toList href.toList then href
  else if startsList ("/").toList href.toList then urlOrigin base ++ href
  else String.mk (dropLastSeg base.toList) ++ href

/-- `HtmlProcessor.extract_links`: for each anchor href in document order, skip
the excluded targets, resolve against the current URL, strip the fragment, and
keep the result only when the caller-supplied validity predicate accepts it. -/
def extract_links (cur : String) (valid : String → Bool) : List String → List String
  | [] => []
  | href :: rest =>
    if skipHref href then extract_links cur valid rest
    else
      let u := urldefragFirst (urljoinModel cur href)
      if valid u then u :: extract_links cur valid rest
      else extract_links cur valid rest

/-! ### Sitemap resolution (src/utils/sitemap.py, fetch_urls lines 26-79) -/

/-- What fetching and classifying one sitemap document yields: a
`<sitemapindex>` with nested sitemap locations, a `<urlset>` with page
locations, an unrecognised document, or a fetch/decode failure (whose
exception `fetch_urls` catches, yielding no URLs from that node). -/
inductive SitemapDoc where
  | indexDoc (locs : List String)
  | urlsetDoc (locs : List String)
  | unknownFormat
  | fetchFailure

/-- `SitemapParser.fetch_urls(sitemap_url, visited, max_depth)` together with
`_parse_index` / `_parse_urlset`.  The collected URLs are a set in the source
(`urls: Set[str]`), and the `visited` set is shared by reference through the
recursion, so both thread through as state here.  The depth check precedes the
visited check, exactly as in the source. -/
def fetch_urls (web : String → SitemapDoc) :
    Nat → String → Finset String → Finset String × Finset String
  | 0, _, visited => (∅, visited)
  | d + 1, url, visited =>
    if url ∈ visited then (∅, visited)
    else
      let vis2 := insert url visited
      match web url with
      | SitemapDoc.indexDoc locs =>
        locs.foldl (fun acc loc =>
          let r := fetch_urls web d loc acc.2
          (acc.1 ∪ r.1, r.2)) ((∅ : Finset String), vis2)
      | SitemapDoc.urlsetDoc locs => (locs.toFinset, vis2)
      | SitemapDoc.unknownFormat => (∅, vis2)
      | SitemapDoc.fetchFailure => (∅, vis2)

/-- A sitemap index whose only entry is itself. -/
def selfRefWeb : String → SitemapDoc := fun u =>
  if u = "https://ex.com/sitemap.xml" then
    SitemapDoc.indexDoc ["https://ex.com/sitemap.xml"]
  else SitemapDoc.unknownFormat

/-! ### Crawl loop (src/doc_crawler.py, crawl lines 260-331) -/

/-- Outcome of `process_page` for a fetched 200 page, at the granularity the
crawl loop observes: page saved and links extracted (`saved`), non-HTML
content skipped (`skippedNonHtml`), an exception before the page was counted
(`procFailed`), or an exception after saving and counting but before the links
were returned (`savedThenError`). -/
inductive ProcOut where
  | saved (links : List String)
  | skippedNonHtml
  | procFailed
  | savedThenError

/-- Outcome of `_fetch_url_with_retry` plus, on a 200 response, of
`process_page`, as one crawl-loop iteration observes it. -/
inductive FetchOut where
  | page (p : ProcOut)
  | httpError
  | requestExc

/-- The crawl loop's environment: the robots.txt verdict per URL and the
fetch/process outcome per URL. -/
structure CrawlEnv where
  robotsAllow : String → Bool
  fetch : String → FetchOut

/-- The mutable crawl state: `visited_urls`, `urls_to_visit` (a FIFO deque),
`urls_in_queue`, the two stats counters the loop touches, and — as an
observation history — the order in which URLs were marked visited. -/
structure CrawlState where
  visited : Finset String
  queue : List String
  inQueue : Finset String
  processed : Nat
  failed : Nat
  order : List String

/-- Crawler construction (src/doc_crawler.py lines 86-88):
`visited_urls = set()`, `urls_to_visit = deque([start_url])`,
`urls_in_queue = {start_url}`. -/
def initState (startUrl : String) : CrawlState :=
  { visited := ∅, queue := [startUrl], inQueue := {startUrl},
    processed := 0, failed := 0, order := [] }

/-- One turn of the link-enqueueing loop (src/doc_crawler.py lines 296-299):
the link is appended at the tail of the frontier, and added to the membership
set, only if it is in neither `visited_urls` nor `urls_in_queue` at that
moment. -/
def enqueueStep (t : CrawlState) (l : String) : CrawlState :=
  if l ∉ t.visited ∧ l ∉ t.inQueue then
    { t with queue := t.queue ++ [l], inQueue := insert l t.inQueue }
  else t

/-- The link-enqueueing loop over all extracted links, in document order. -/
def enqueueLinks (s : CrawlState) (links : List String) : CrawlState :=
  links.foldl enqueueStep s

/-- The dequeue at the top of a loop iteration (lines 271-272):
`current_url = urls_to_visit.popleft(); urls_in_queue.discard(current_url)`. -/
def dequeue (s : CrawlState) : Option (String × CrawlState) :=
  match s.queue with
  | [] => none
  | u :: rest => some (u, { s with queue := rest, inQueue := s.inQueue.erase u })

/-- One iteration of the crawl loop body (lines 271-320): dequeue the head and
drop it from the membership set; skip if already visited or disallowed by
robots.txt; otherwise mark it visited, fetch, and either enqueue the extracted
links or account a failure.  Rate limiting and sleeping do not change the
state observed here. -/
def stepOnce (env : CrawlEnv) (s : CrawlState) : CrawlState :=
  match s.queue with
  | [] => s
  | u :: rest =>
    let s1 : CrawlState := { s with queue := rest, inQueue := s.inQueue.erase u }
    if u ∈ s1.visited then s1
    else if env.robotsAllow u = false then s1
    else
      let s2 := { s1 with visited := insert u s1.visited, order := s1.order ++ [u] }
      match env.fetch u with
      | FetchOut.page (ProcOut.saved links) =>
        enqueueLinks { s2 with processed := s2.processed + 1 } links
      | FetchOut.page ProcOut.skippedNonHtml => s2
      | FetchOut.page ProcOut.procFailed => { s2 with failed := s2.failed + 1 }
      | FetchOut.page ProcOut.savedThenError =>
        { s2 with processed := s2.processed + 1, failed := s2.failed + 1 }
      | FetchOut.httpError => { s2 with failed := s2.failed + 1 }
      | FetchOut.requestExc => { s2 with failed := s2.failed + 1 }

/-- The `while self.urls_to_visit:` loop (lines 266-322) with its
`max_pages` stop condition, run for at most `fuel` iterations. -/
def crawlRun (env : CrawlEnv) (maxPages : Nat) : Nat → CrawlState → CrawlState
  | 0, s => s
  | fuel + 1, s =>
    match s.queue with
    | [] => s
    | _ :: _ =>
      if 0 < maxPages ∧ maxPages ≤ s.processed then s
      else crawlRun env maxPages fuel (stepOnce env s)

/-- States reachable from `s0` by complete crawl-loop iterations. -/
inductive Reach (env : CrawlEnv) (maxPages : Nat) (s0 : CrawlState) : CrawlState → Prop
  | refl : Reach env maxPages s0 s0
  | next {t : CrawlState} : Reach env maxPages s0 t → t.queue ≠ [] →
      ¬(0 < maxPages ∧ maxPages ≤ t.processed) → Reach env maxPages s0 (stepOnce env t)

/-- The page graph A→[B,C], B→[D] of the FIFO ordering property, every page
allowed and processing successfully. -/
def exampleFetch : String → FetchOut := fun u =>
  if u = "A" then FetchOut.page (ProcOut.saved ["B", "C"])
  else if u = "B" then FetchOut.page (ProcOut.saved ["D"])
  else FetchOut.page (ProcOut.saved [])

def exampleEnv : CrawlEnv := { robotsAllow := fun _ => true, fetch := exampleFetch }

/-! ### Page processing (src/doc_crawler.py, process_page lines 199-258) -/

/-- Collaborators of `process_page`: the HTML-to-Markdown converter, the link
extractor (already composed with the validity predicate of line 248), and
whether the conversion/storage path raises. -/
structure PageEnv where
  extractText : String → String
  extractLinks : String → String → List String
  saveFails : Bool

/-- The response fields `process_page` reads: the `Content-Type` header (absent
headers default to `''`), the body bytes, and the decoded body text. -/
structure Resp where
  contentTypeHeader : Option String
  content : List Nat
  body : String

/-- The engine state `process_page` can touch: the three stats counters, the
files written to storage, and the page-completed callback invocations. -/
structure PageState where
  processed : Nat
  failed : Nat
  bytes : Nat
  savedFiles : List (String × String)
  completedCallbacks : List (String × Nat)

/-- `DocuCrawler.process_page` (single-file mode off): account the downloaded
bytes, return `None` for non-HTML content, otherwise convert, save, bump the
processed counter, fire the page-completed callback and return the extracted
links; any exception in that path increments the failure counter and returns
`None`. -/
def process_page (env : PageEnv) (url : String) (r : Resp) (st : PageState) :
    PageState × Option (List String) :=
  let contentType := pyLower (r.contentTypeHeader.getD "")
  let st1 := { st with bytes := st.bytes + r.content.length }
  if occursIn ("text/html").toList contentType.toList = false then (st1, none)
  else if env.saveFails then ({ st1 with failed := st1.failed + 1 }, none)
  else
    let text := env.extractText r.body
    let st2 := { st1 with savedFiles := st1.savedFiles ++ [(url, text)], processed := st1.processed + 1 }
    let st3 := { st2 with completedCallbacks := st2.completedCallbacks ++ [(url, st2.processed)] }
    (st3, some (env.extractLinks r.body url))

/-! ### Concrete instances used in the theorems below -/

/-- The two sets that the dedup invariant of the crawl loop relates. -/
def disjointVQ (s : CrawlState) : Prop := ∀ u ∈ s.visited, u ∉ s.inQueue

def resp503 : HttpResponse := { status := 503, content := [] }

def resp200 : HttpResponse := { status := 200, content := [72, 105] }

/-- Four attempts, every one answered with an HTTP 503. -/
def allAttempts503 : Nat → CallOut := fun _ => CallOut.resp resp503

/-- Two 503 responses followed by a 200 within the retry budget. -/
def attempts503then200 : Nat → CallOut := fun i =>
  if i < 2 then CallOut.resp resp503 else CallOut.resp resp200

/-! ## Theorems -/

/-! ### C1 — robots.txt fallback -/

/-- C1.  The claim (and the comments at src/utils/robots.py lines 64-72 and 95)
say that after a robots.txt fetch failure, timeout, or HTTP 401/403,
`RobotsTxtChecker.can_fetch` falls back to allow-all and returns `True` for
every URL of the domain.  The code actually denies: on those outcomes
`parser.parse` is never called, so the cached `RobotFileParser` still has
`last_checked == 0`, and CPython's `RobotFileParser.can_fetch` returns `False`
whenever `last_checked` is unset ("we must assume that no url is allowable").
A parsed HTTP 200 robots.txt behaves normally (last conjunct), so the denial
is specific to the fallback paths. -/
theorem robots_fallback_denies_all :
    can_fetch RobotsFetchResult.exc "*" "https://example.com/page" = false ∧
    can_fetch (RobotsFetchResult.success 401 (fun _ _ => true)) "*"
      "https://example.com/page" = false ∧
    can_fetch (RobotsFetchResult.success 403 (fun _ _ => true)) "*"
      "https://example.com/other" = false ∧
    can_fetch (RobotsFetchResult.success 200 (fun _ _ => true)) "*"
      "https://example.com/page" = true :=
  ⟨rfl, rfl, rfl, rfl⟩

/-! ### C2 — retry budget -/

/-- C2 counterexample.  With a retryable status (503) on every one of the four
attempts (1 initial + 3 retries), `retry_on_http_error` does not surface a
terminating error: after the loop's `attempt < max_retries` guard fails on the
final attempt, control falls through to `return result`, so the final 503
response itself is returned to the caller. -/
theorem retry_exhaustion_returns_response :
    retry_on_http_error defaultRetryCodes 3 allAttempts503 = RetryOut.returned resp503 ∧
    RetryOut.returned resp503 ≠ RetryOut.raised FetchError.contentTooLarge ∧
    RetryOut.returned resp503 ≠ RetryOut.raised FetchError.requestError :=
  ⟨rfl, by decide, by decide⟩

/-- If every attempt from `attempt` through `maxR` yields a response with a
retryable status, the loop runs to the last attempt and returns that final
response. -/
theorem retryGo_resp_all (codes : List Nat) (maxR : Nat) (calls : Nat → CallOut)
    (rs : Nat → HttpResponse) :
    ∀ fuel attempt, maxR + 1 - attempt = fuel → attempt ≤ maxR →
      (∀ i, attempt ≤ i → i ≤ maxR → calls i = CallOut.resp (rs i) ∧ (rs i).status ∈ codes) →
      retryGo codes maxR calls attempt fuel = RetryOut.returned (rs maxR) := by
  intro fuel
  induction fuel with
  | zero => intro attempt hf ha _; omega
  | succ f ih =>
    intro attempt hf ha h
    have hc := h attempt le_rfl ha
    simp only [retryGo, hc.1]
    rw [if_pos hc.2]
    by_cases hlt : attempt < maxR
    · rw [if_pos hlt]
      exact ih (attempt + 1) (by omega) (by omega) (fun i h1 h2 => h i (by omega) h2)
    · rw [if_neg hlt]
      have he : attempt = maxR := by omega
      rw [he]

/-- If every attempt from `attempt` through `maxR` raises, the loop re-raises
the exception of the last attempt. -/
theorem retryGo_exc_all (codes : List Nat) (maxR : Nat) (calls : Nat → CallOut)
    (es : Nat → FetchError) :
    ∀ fuel attempt, maxR + 1 - attempt = fuel → attempt ≤ maxR →
      (∀ i, attempt ≤ i → i ≤ maxR → calls i = CallOut.exc (es i)) →
      retryGo codes maxR calls attempt fuel = RetryOut.raised (es maxR) := by
  intro fuel
  induction fuel with
  | zero => intro attempt hf ha _; omega
  | succ f ih =>
    intro attempt hf ha h
    simp only [retryGo, h attempt le_rfl ha]
    by_cases hlt : attempt < maxR
    · rw [if_pos hlt]
      exact ih (attempt + 1) (by omega) (by omega) (fun i h1 h2 => h i (by omega) h2)
    · rw [if_neg hlt]
      have he : attempt = maxR := by omega
      rw [he]

/-- If attempts before `k` all yield retryable responses and attempt `k`
(inside the budget) yields a non-retryable response, the loop returns exactly
that response. -/
theorem retryGo_stops (codes : List Nat) (maxR : Nat) (calls : Nat → CallOut)
    (r : HttpResponse) :
    ∀ fuel attempt k, maxR + 1 - attempt = fuel → attempt ≤ k → k ≤ maxR →
      (∀ i, attempt ≤ i → i < k → ∃ ri, calls i = CallOut.resp ri ∧ ri.status ∈ codes) →
      calls k = CallOut.resp r → r.status ∉ codes →
      retryGo codes maxR calls attempt fuel = RetryOut.returned r := by
  intro fuel
  induction fuel with
  | zero => intro attempt k hf ha hk _ _ _; omega
  | succ f ih =>
    intro attempt k hf ha hk hpre hck hnot
    by_cases hak : attempt = k
    · subst hak
      simp only [retryGo, hck]
      rw [if_neg hnot]
    · have hlt : attempt < k := by omega
      obtain ⟨ri, hci, hmi⟩ := hpre attempt le_rfl hlt
      simp only [retryGo, hci]
      rw [if_pos hmi, if_pos (show attempt < maxR by omega)]
      exact ih (attempt + 1) k (by omega) (by omega) hk
        (fun i h1 h2 => hpre i (by omega) h2) hck hnot

/-- C2, amended.  As decorated in the source (`max_retries=3`), the retry
wrapper behaves as follows.  (1) When all four attempts return responses with
retryable status codes, the wrapper returns the final attempt's response
unchanged — a complete response, not a terminating error (the error-surfacing
part of the claim holds only for the exception path).  (2) When every attempt
raises, the wrapper re-raises the last exception: a single terminating error.
(3) When a non-retryable response (e.g. a 200 after a run of 503s) arrives at
attempt `k` within the budget, the caller observes exactly that one final
response. -/
theorem retry_budget_amended (calls : Nat → CallOut) (rs : Nat → HttpResponse)
    (es : Nat → FetchError) :
    ((∀ i, i ≤ 3 → calls i = CallOut.resp (rs i) ∧ (rs i).status ∈ defaultRetryCodes) →
      retry_on_http_error defaultRetryCodes 3 calls = RetryOut.returned (rs 3)) ∧
    ((∀ i, i ≤ 3 → calls i = CallOut.exc (es i)) →
      retry_on_http_error defaultRetryCodes 3 calls = RetryOut.raised (es 3)) ∧
    (∀ k r, k ≤ 3 →
      (∀ i, i < k → calls i = CallOut.resp (rs i) ∧ (rs i).status ∈ defaultRetryCodes) →
      calls k = CallOut.resp r → r.status ∉ defaultRetryCodes →
      retry_on_http_error defaultRetryCodes 3 calls = RetryOut.returned r) := by
  refine ⟨?_, ?_, ?_⟩
  · intro h
    exact retryGo_resp_all defaultRetryCodes 3 calls rs 4 0 rfl (by omega)
      (fun i _ h2 => h i h2)
  · intro h
    exact retryGo_exc_all defaultRetryCodes 3 calls es 4 0 rfl (by omega)
      (fun i _ h2 => h i h2)
  · intro k r hk hpre hck hnot
    exact retryGo_stops defaultRetryCodes 3 calls r 4 0 k rfl (by omega) hk
      (fun i _ h2 => ⟨rs i, hpre i h2⟩) hck hnot

/-- C2 witness: two 503 responses followed by a 200 within the retry budget
yield exactly that one final 200 response. -/
theorem retry_budget_amended_witness :
    retry_on_http_error defaultRetryCodes 3 attempts503then200 = RetryOut.returned resp200 :=
  (retry_budget_amended attempts503then200 (fun _ => resp503)
      (fun _ => FetchError.requestError)).2.2 2 resp200 (by omega)
    (fun i hi => by
      interval_cases i
      · exact ⟨rfl, by decide⟩
      · exact ⟨rfl, by decide⟩)
    rfl (by decide)

/-! ### C3 — streaming size guard -/

/-- If the remaining chunks push the accumulated body over the limit, the
streaming loop raises the size error (provided the accumulator has not
exceeded the limit yet, which the loop maintains). -/
theorem readChunks_tooBig (maxLen : Nat) :
    ∀ (cs : List (List Nat)) (acc : List Nat), acc.length ≤ maxLen →
      maxLen < (acc ++ cs.flatten).length →
      readChunks maxLen cs acc = Except.error FetchError.contentTooLarge := by
  intro cs
  induction cs with
  | nil =>
    intro acc h1 h2
    simp only [List.flatten_nil, List.append_nil] at h2
    omega
  | cons c cs ih =>
    intro acc h1 h2
    simp only [readChunks]
    by_cases hb : maxLen < (acc ++ c).length
    · rw [if_pos hb]
    · rw [if_neg hb]
      refine ih (acc ++ c) (by omega) ?_
      simp only [List.flatten_cons, List.length_append] at h2 ⊢
      omega

/-- Whenever the streaming loop completes without raising, the produced body
is the full concatenation of all chunks and never exceeds the limit. -/
theorem readChunks_ok (maxLen : Nat) :
    ∀ (cs : List (List Nat)) (acc content : List Nat), acc.length ≤ maxLen →
      readChunks maxLen cs acc = Except.ok content →
      content = acc ++ cs.flatten ∧ content.length ≤ maxLen := by
  intro cs
  induction cs with
  | nil =>
    intro acc content h1 h2
    simp only [readChunks] at h2
    cases h2
    simp only [List.flatten_nil, List.append_nil]
    exact ⟨trivial, h1⟩
  | cons c cs ih =>
    intro acc content h1 h2
    simp only [readChunks] at h2
    by_cases hb : maxLen < (acc ++ c).length
    · rw [if_pos hb] at h2; cases h2
    · rw [if_neg hb] at h2
      obtain ⟨hc, hl⟩ := ih (acc ++ c) content (by omega) h2
      refine ⟨?_, hl⟩
      rw [hc, List.flatten_cons, List.append_assoc]

/-- A response whose streamed body exceeds the limit always makes the
undecorated fetch body raise `ContentTooLargeError`, whatever the
`Content-Length` header said. -/
theorem fetchBody_tooBig (maxLen : Nat) (r : RawResponse)
    (h : maxLen < r.stream.flatten.length) :
    fetchBody maxLen r = Except.error FetchError.contentTooLarge := by
  have hs : fetchStream maxLen r = Except.error FetchError.contentTooLarge := by
    unfold fetchStream
    rw [readChunks_tooBig maxLen r.stream [] (by simp) (by simpa using h)]
  unfold fetchBody
  split
  · split
    · rfl
    · exact hs
  · exact hs

/-- C3.  If on every attempt the streamed body exceeds the configured maximum
content length, the decorated `_fetch_url_with_retry` raises
`ContentTooLargeError` (the retry wrapper retries the size error three times
and then re-raises it) and never hands the caller a response; and whenever the
fetch body does return a response, its content is the complete chunk
concatenation, of length at most the maximum — never a partial body.  This
holds with the `Content-Length` header absent, non-numeric, or under-reporting,
since the chunk accumulation check is independent of the header check. -/
theorem content_size_guard (maxLen : Nat) (raws : Nat → RawResponse)
    (hbig : ∀ i, maxLen < ((raws i).stream.flatten).length) :
    fetch_url_with_retry maxLen raws = RetryOut.raised FetchError.contentTooLarge ∧
    (∀ (r : RawResponse) (resp : HttpResponse), fetchBody maxLen r = Except.ok resp →
      resp.content = r.stream.flatten ∧ resp.content.length ≤ maxLen) := by
  constructor
  · unfold fetch_url_with_retry retry_on_http_error
    refine retryGo_exc_all defaultRetryCodes 3 _ (fun _ => FetchError.contentTooLarge)
      4 0 rfl (by omega) ?_
    intro i _ _
    simp only [fetchBody_tooBig maxLen (raws i) (hbig i)]
  · intro r resp h
    have hstream : fetchStream maxLen r = Except.ok resp →
        resp.content = r.stream.flatten ∧ resp.content.length ≤ maxLen := by
      intro hs
      unfold fetchStream at hs
      split at hs
      · cases hs
      next content heq =>
        split at hs
        · cases hs
        · cases hs
          obtain ⟨hc, hl⟩ := readChunks_ok maxLen r.stream [] content (by simp) heq
          rw [List.nil_append] at hc
          exact ⟨hc, hl⟩
    unfold fetchBody at h
    split at h
    · split at h
      · cases h
      · exact hstream h
    · exact hstream h

/-- C3 witness: with a 2-byte limit and a single 3-byte chunk on every attempt
(no `Content-Length` header at all), the decorated fetch raises the size
error. -/
theorem content_size_guard_witness :
    fetch_url_with_retry 2 (fun _ =>
      { status := 200, clHeader := ClHeader.absent, stream := [[1, 2, 3]],
        streamFails := false }) = RetryOut.raised FetchError.contentTooLarge :=
  (content_size_guard 2 _ (fun i => by decide)).1

/-! ### Crawl-loop lemmas shared by C4 and C5 -/

theorem enqueueStep_visited (s : CrawlState) (l : String) :
    (enqueueStep s l).visited = s.visited := by
  unfold enqueueStep
  split <;> rfl

theorem enqueueLinks_visited : ∀ (links : List String) (s : CrawlState),
    (enqueueLinks s links).visited = s.visited := by
  intro links
  induction links with
  | nil => intro s; rfl
  | cons l t ih =>
    intro s
    exact (ih (enqueueStep s l)).trans (enqueueStep_visited s l)

theorem enqueueStep_queue (s : CrawlState) (l : String) :
    ∃ e, (enqueueStep s l).queue = s.queue ++ e := by
  unfold enqueueStep
  split
  · exact ⟨[l], rfl⟩
  · exact ⟨[], (List.append_nil _).symm⟩

theorem enqueueLinks_queue : ∀ (links : List String) (s : CrawlState),
    ∃ e, (enqueueLinks s links).queue = s.queue ++ e := by
  intro links
  induction links with
  | nil => intro s; exact ⟨[], (List.append_nil _).symm⟩
  | cons l t ih =>
    intro s
    obtain ⟨e1, h1⟩ := enqueueStep_queue s l
    obtain ⟨e2, h2⟩ := ih (enqueueStep s l)
    exact ⟨e1 ++ e2, by rw [show (enqueueLinks s (l :: t)).queue =
      (enqueueLinks (enqueueStep s l) t).queue from rfl, h2, h1, List.append_assoc]⟩

theorem enqueueStep_disjoint (s : CrawlState) (l : String) (h : disjointVQ s) :
    disjointVQ (enqueueStep s l) := by
  unfold enqueueStep
  split
  next hc =>
    intro u hu hq
    rcases Finset.mem_insert.mp hq with h1 | h2
    · exact hc.1 (h1 ▸ hu)
    · exact h u hu h2
  next => exact h

theorem enqueueLinks_disjoint : ∀ (links : List String) (s : CrawlState),
    disjointVQ s → disjointVQ (enqueueLinks s links) := by
  intro links
  induction links with
  | nil => intro s h; exact h
  | cons l t ih => intro s h; exact ih (enqueueStep s l) (enqueueStep_disjoint s l h)

/-- Exhaustive description of one crawl-loop iteration: either the frontier
was empty and nothing happened; or the dequeued URL was skipped (already
visited, or disallowed by robots.txt) leaving only the dequeue effect; or the
URL was freshly visited and the iteration ends by enqueueing some (possibly
empty) list of links over the dequeued-and-visited state, with some counter
values. -/
theorem stepOnce_cases (env : CrawlEnv) (s : CrawlState) :
    (s.queue = [] ∧ stepOnce env s = s) ∨
    (∃ u rest, s.queue = u :: rest ∧
      stepOnce env s = { s with queue := rest, inQueue := s.inQueue.erase u }) ∨
    (∃ u rest links pc fc, s.queue = u :: rest ∧ u ∉ s.visited ∧
      stepOnce env s = enqueueLinks
        { visited := insert u s.visited, queue := rest, inQueue := s.inQueue.erase u,
          processed := pc, failed := fc, order := s.order ++ [u] } links) := by
  obtain ⟨vis, q, inq, pc, fc, ord⟩ := s
  cases q with
  | nil => exact Or.inl ⟨rfl, rfl⟩
  | cons u rest =>
    by_cases hv : u ∈ vis
    · refine Or.inr (Or.inl ⟨u, rest, rfl, ?_⟩)
      simp [stepOnce, hv]
    · by_cases hr : env.robotsAllow u = false
      · refine Or.inr (Or.inl ⟨u, rest, rfl, ?_⟩)
        simp [stepOnce, hv, hr]
      · refine Or.inr (Or.inr ⟨u, rest, ?_⟩)
        cases hf : env.fetch u with
        | page p =>
          cases p with
          | saved links =>
            exact ⟨links, pc + 1, fc, rfl, hv, by simp [stepOnce, hv, hr, hf, enqueueLinks]⟩
          | skippedNonHtml =>
            exact ⟨[], pc, fc, rfl, hv, by simp [stepOnce, hv, hr, hf, enqueueLinks]⟩
          | procFailed =>
            exact ⟨[], pc, fc + 1, rfl, hv, by simp [stepOnce, hv, hr, hf, enqueueLinks]⟩
          | savedThenError =>
            exact ⟨[], pc + 1, fc + 1, rfl, hv, by simp [stepOnce, hv, hr, hf, enqueueLinks]⟩
        | httpError =>
          exact ⟨[], pc, fc + 1, rfl, hv, by simp [stepOnce, hv, hr, hf, enqueueLinks]⟩
        | requestExc =>
          exact ⟨[], pc, fc + 1, rfl, hv, by simp [stepOnce, hv, hr, hf, enqueueLinks]⟩

theorem stepOnce_disjoint (env : CrawlEnv) (s : CrawlState) (h : disjointVQ s) :
    disjointVQ (stepOnce env s) := by
  rcases stepOnce_cases env s with ⟨_, h1⟩ | ⟨u, rest, hq, h1⟩ |
    ⟨u, rest, links, pc, fc, hq, hv, h1⟩
  · rw [h1]; exact h
  · rw [h1]
    intro v hvv hvq
    exact h v hvv (Finset.mem_of_mem_erase hvq)
  · rw [h1]
    apply enqueueLinks_disjoint
    intro v hvv hvq
    rcases Finset.mem_insert.mp hvv with rfl | hvv'
    · exact Finset.not_mem_erase v s.inQueue hvq
    · exact h v hvv' (Finset.mem_of_mem_erase hvq)

/-! ### C4 — dedup invariant -/

/-- C4.  In every crawl-loop state reachable from the initial state, no URL is
simultaneously a member of `visited_urls` and of `urls_in_queue`; and the
invariant also holds at the intermediate point right after a dequeue completes
(the URL is discarded from the membership set at the moment it is dequeued,
before it is added to the visited set, and links are enqueued only when in
neither set). -/
theorem crawl_dedup_invariant (env : CrawlEnv) (m : Nat) (a : String) (s : CrawlState)
    (h : Reach env m (initState a) s) :
    (∀ u ∈ s.visited, u ∉ s.inQueue) ∧
    (∀ u s', dequeue s = some (u, s') → ∀ v ∈ s'.visited, v ∉ s'.inQueue) := by
  have hd : disjointVQ s := by
    induction h with
    | refl =>
      intro u hu
      simp only [initState] at hu
      exact absurd hu (Finset.not_mem_empty u)
    | next hreach hq hm ih => exact stepOnce_disjoint env _ ih
  refine ⟨hd, ?_⟩
  intro u s' hs' v hv hq
  unfold dequeue at hs'
  cases hqq : s.queue with
  | nil => rw [hqq] at hs'; cases hs'
  | cons w rest =>
    rw [hqq] at hs'
    cases hs'
    exact hd v hv (Finset.mem_of_mem_erase hq)

/-- C4 witness: the invariant instantiated at the state reached after one
iteration from the initial state of a concrete crawl. -/
theorem crawl_dedup_invariant_witness :
    (∀ u ∈ (stepOnce exampleEnv (initState "A")).visited,
        u ∉ (stepOnce exampleEnv (initState "A")).inQueue) ∧
    (∀ u s', dequeue (stepOnce exampleEnv (initState "A")) = some (u, s') →
        ∀ v ∈ s'.visited, v ∉ s'.inQueue) :=
  crawl_dedup_invariant exampleEnv 0 "A" _
    (Reach.next Reach.refl (by decide) (by decide))

/-! ### C5 — FIFO (breadth-first) visit order -/

/-- C5.  The crawl loop is FIFO: each iteration dequeues the head of the
frontier and only ever appends newly discovered links at the tail (first
conjunct); consequently, on the concrete page graph A→[B,C], B→[D] the visit
order is exactly A, B, C, D — breadth-first — and never A, B, D, C. -/
theorem crawl_fifo_order (env : CrawlEnv) (s : CrawlState) (u : String)
    (rest : List String) (hq : s.queue = u :: rest) :
    (∃ extra, (stepOnce env s).queue = rest ++ extra) ∧
    (crawlRun exampleEnv 0 10 (initState "A")).order = ["A", "B", "C", "D"] ∧
    (crawlRun exampleEnv 0 10 (initState "A")).order ≠ ["A", "B", "D", "C"] := by
  refine ⟨?_, by decide, by decide⟩
  rcases stepOnce_cases env s with ⟨hnil, _⟩ | ⟨u', rest', hq', h1⟩ |
    ⟨u', rest', links, pc, fc, hq', hv, h1⟩
  · rw [hq] at hnil; cases hnil
  · rw [hq] at hq'
    cases hq'
    exact ⟨[], by rw [h1]; simp⟩
  · rw [hq] at hq'
    cases hq'
    obtain ⟨e, he⟩ := enqueueLinks_queue links
      { visited := insert u s.visited, queue := rest, inQueue := s.inQueue.erase u,
        processed := pc, failed := fc, order := s.order ++ [u] }
    exact ⟨e, by rw [h1, he]⟩

/-- C5 witness: the FIFO step property applied to the initial state of the
concrete crawl, whose frontier head is the start URL. -/
theorem crawl_fifo_order_witness :
    (∃ extra, (stepOnce exampleEnv (initState "A")).queue = [] ++ extra) ∧
    (crawlRun exampleEnv 0 10 (initState "A")).order = ["A", "B", "C", "D"] ∧
    (crawlRun exampleEnv 0 10 (initState "A")).order ≠ ["A", "B", "D", "C"] :=
  crawl_fifo_order exampleEnv (initState "A") "A" [] rfl

/-! ### C6 — table column handling -/

/-- C6 counterexample.  A table with 2 header cells and a 3-cell data row: the
claim says the data row is truncated to exactly 2 columns, but the code's
`[''] * (header_cols - len(cell_texts))` padding is a no-op for longer rows
(negative repeat count), so the output data row keeps all 3 cells. -/
theorem table_truncation_counterexample :
    process_tables_headed ["H1", "H2"] [["a", "b", "c"]] =
      ["| H1 | H2 |", "| --- | --- |", "| a | b | c |"] ∧
    (padCells (some 2) ["a", "b", "c"]).length = 3 ∧
    (padCells (some 2) ["a", "b", "c"]).length ≠ 2 :=
  ⟨by decide, by decide, by decide⟩

/-- C6, amended.  For a table with an explicit `thead` holding at least one
header cell and a `tbody`, the output starts with a header row and a `---`
separator row of exactly as many cells as there are header cells, and each
non-empty data row is padded with empty cells up to the header width when it
is shorter — but a data row with more cells than the header is emitted
unchanged, with its own larger cell count (no truncation). -/
theorem table_pad_only_amended (headerCells : List String) (row : List String)
    (hh : headerCells ≠ []) (hr : row ≠ []) :
    process_tables_headed headerCells [row] =
      [renderRow (headerCells.map escapeCell),
       renderRow (List.replicate headerCells.length "---"),
       renderRow (padCells (some headerCells.length) (row.map escapeCell))] ∧
    (List.replicate headerCells.length "---").length = headerCells.length ∧
    (row.length ≤ headerCells.length →
      (padCells (some headerCells.length) (row.map escapeCell)).length = headerCells.length) ∧
    (headerCells.length < row.length →
      padCells (some headerCells.length) (row.map escapeCell) = row.map escapeCell) := by
  have hhe : headerCells.isEmpty = false := by
    cases headerCells with
    | nil => exact absurd rfl hh
    | cons a t => rfl
  have hre : row.isEmpty = false := by
    cases row with
    | nil => exact absurd rfl hr
    | cons a t => rfl
  have hn0 : headerCells.length ≠ 0 := by
    cases headerCells with
    | nil => exact absurd rfl hh
    | cons a t => simp
  refine ⟨?_, List.length_replicate _ _, ?_, ?_⟩
  · unfold process_tables_headed
    rw [hhe]
    simp [hre]
  · intro hle
    simp only [padCells]
    by_cases heq : (row.map escapeCell).length = headerCells.length
    · rw [if_neg (by simp [heq])]
      exact heq
    · rw [if_pos ⟨hn0, heq⟩]
      simp only [List.length_append, List.length_replicate, List.length_map] at heq ⊢
      omega
  · intro hgt
    simp only [padCells]
    have hl : (row.map escapeCell).length = row.length := List.length_map _ _
    rw [if_pos ⟨hn0, by omega⟩]
    have : headerCells.length - (row.map escapeCell).length = 0 := by omega
    rw [this, List.replicate_zero, List.append_nil]

/-- C6 witness: a 2-header table with a 1-cell data row is padded to exactly
2 columns, and the separator row has 2 cells. -/
theorem table_pad_only_witness :
    process_tables_headed ["H1", "H2"] [["a"]] =
      [renderRow (["H1", "H2"].map escapeCell),
       renderRow (List.replicate 2 "---"),
       renderRow (padCells (some 2) (["a"].map escapeCell))] ∧
    (List.replicate (["H1", "H2"] : List String).length "---").length =
      (["H1", "H2"] : List String).length ∧
    ((["a"] : List String).length ≤ (["H1", "H2"] : List String).length →
      (padCells (some (["H1", "H2"] : List String).length)
        (["a"].map escapeCell)).length = (["H1", "H2"] : List String).length) ∧
    ((["H1", "H2"] : List String).length < (["a"] : List String).length →
      padCells (some (["H1", "H2"] : List String).length) (["a"].map escapeCell) =
        ["a"].map escapeCell) :=
  table_pad_only_amended ["H1", "H2"] ["a"] (by decide) (by decide)

/-! ### C8 — sitemap cycle safety -/

/-- C8.  Recursion in `fetch_urls` is cut by the visited set: a sitemap URL
already in `visited` contributes no URLs and leaves the state unchanged (first
conjunct; termination itself is inherent in the embedding, whose recursion is
bounded by the `max_depth` fuel exactly as in the source).  Concretely, a
sitemap index whose only entry is itself resolves, at the default depth 10,
to the empty URL set without error (second conjunct). -/
theorem sitemap_cycle_resolves_empty (web : String → SitemapDoc) (d : Nat)
    (url : String) (visited : Finset String) (hv : url ∈ visited) :
    fetch_urls web (d + 1) url visited = (∅, visited) ∧
    fetch_urls selfRefWeb 10 "https://ex.com/sitemap.xml" ∅ =
      (∅, {"https://ex.com/sitemap.xml"}) := by
  constructor
  · simp [fetch_urls, hv]
  · decide

/-- C8 witness: the visited-set cut applied at a concrete already-visited
sitemap URL. -/
theorem sitemap_cycle_witness :
    fetch_urls selfRefWeb 4 "https://u.example/s.xml" {"https://u.example/s.xml"} =
      (∅, {"https://u.example/s.xml"}) ∧
    fetch_urls selfRefWeb 10 "https://ex.com/sitemap.xml" ∅ =
      (∅, {"https://ex.com/sitemap.xml"}) :=
  sitemap_cycle_resolves_empty selfRefWeb 3 "https://u.example/s.xml"
    {"https://u.example/s.xml"} (by decide)

/-! ### C9 — title separator precedence -/

theorem startsList_iff : ∀ (pat s : List Char),
    startsList pat s = true ↔ ∃ t, s = pat ++ t := by
  intro pat
  induction pat with
  | nil =>
    intro s
    constructor
    · intro _; exact ⟨s, rfl⟩
    · intro _; rfl
  | cons a pa ih =>
    intro s
    cases s with
    | nil =>
      simp only [startsList]
      constructor
      · intro h; cases h
      · rintro ⟨t, ht⟩; cases ht
    | cons b sb =>
      by_cases hab : a = b
      · subst hab
        rw [startsList, if_pos rfl]
        constructor
        · intro h
          obtain ⟨t, rfl⟩ := (ih sb).mp h
          exact ⟨t, rfl⟩
        · rintro ⟨t, ht⟩
          injection ht with h1 h2
          exact (ih sb).mpr ⟨t, h2⟩
      · rw [startsList, if_neg hab]
        constructor
        · intro h; cases h
        · rintro ⟨t, ht⟩
          injection ht with h1 h2
          exact (hab h1.symm).elim

/-- The part before the first occurrence really is an initial segment of the
scanned list. -/
theorem beforeFirst_isPre (pat : List Char) : ∀ s, ∃ u, s = beforeFirst s pat ++ u := by
  intro s
  induction s with
  | nil => exact ⟨[], rfl⟩
  | cons c t ih =>
    by_cases hst : startsList pat (c :: t) = true
    · rw [beforeFirst, if_pos hst]
      exact ⟨c :: t, rfl⟩
    · rw [beforeFirst, if_neg hst]
      obtain ⟨u, hu⟩ := ih
      exact ⟨u, by rw [List.cons_append, ← hu]⟩

/-- If the pattern occurs at all, the scanned list decomposes as the part
before the first occurrence, the pattern, and a remainder. -/
theorem beforeFirst_decomp (pat : List Char) (hne : pat ≠ []) :
    ∀ s, occursIn pat s = true → ∃ rest, s = beforeFirst s pat ++ pat ++ rest := by
  intro s
  induction s with
  | nil =>
    intro h
    cases pat with
    | nil => exact absurd rfl hne
    | cons a pa => cases h
  | cons c t ih =>
    intro h
    by_cases hst : startsList pat (c :: t) = true
    · obtain ⟨u, hu⟩ := (startsList_iff pat (c :: t)).mp hst
      rw [beforeFirst, if_pos hst]
      exact ⟨u, by rw [List.nil_append, ← hu]⟩
    · rw [beforeFirst, if_neg hst]
      rw [occursIn] at h
      rcases Bool.or_eq_true_iff.mp h with h1 | h2
      · exact absurd h1 hst
      · obtain ⟨rest, hr⟩ := ih h2
        refine ⟨rest, ?_⟩
        conv_lhs => rw [hr]
        simp [List.cons_append, List.append_assoc]

/-- The part before the first occurrence contains no occurrence of the
pattern: `beforeFirst` really stops at the first one. -/
theorem beforeFirst_no_occurrence (pat : List Char) (hne : pat ≠ []) :
    ∀ s, occursIn pat (beforeFirst s pat) = false := by
  intro s
  induction s with
  | nil =>
    cases pat with
    | nil => exact absurd rfl hne
    | cons a pa => rfl
  | cons c t ih =>
    by_cases hst : startsList pat (c :: t) = true
    · rw [beforeFirst, if_pos hst]
      cases pat with
      | nil => exact absurd rfl hne
      | cons a pa => rfl
    · rw [beforeFirst, if_neg hst]
      have h1 : startsList pat (c :: beforeFirst t pat) = false := by
        cases hb : startsList pat (c :: beforeFirst t pat) with
        | false => rfl
        | true =>
          obtain ⟨v, hv⟩ := (startsList_iff _ _).mp hb
          obtain ⟨u, hu⟩ := beforeFirst_isPre pat t
          have hct : c :: t = pat ++ (v ++ u) := by
            rw [hu, ← List.cons_append, hv, List.append_assoc]
          exact absurd ((startsList_iff _ _).mpr ⟨v ++ u, hct⟩) hst
      rw [occursIn, h1, ih]
      rfl

/-- C9 counterexample.  The claim says the derived title is the text before
whichever separator occurs first; in `"A - B | C"` the first separator is
`" - "` (so the claim predicts `"A"`, as the spec-worded `deriveTitleSpec`
computes), but the code checks `' | ' in title` first and so splits on the
later `" | "`, producing `"A - B"`. -/
theorem title_first_separator_counterexample :
    deriveTitle "A - B | C" = "A - B" ∧
    deriveTitleSpec "A - B | C" = "A" ∧
    deriveTitle "A - B | C" ≠ deriveTitleSpec "A - B | C" :=
  ⟨by decide, by decide, by decide⟩

/-- C9, amended.  The `" | "` separator takes precedence regardless of
position: when the stripped title contains `" | "`, the derived title is the
stripped text before the first occurrence of `" | "` (the kept part is an
initial segment immediately followed by `" | "`, and itself contains no
`" | "`); only otherwise, when the title contains `" - "`, is the text before
the first `" - "` kept; with neither separator the stripped title is kept
whole. -/
theorem title_pipe_precedence_amended (raw : String) :
    (occursIn pipeSep (pyStrip raw).toList = true →
      (∃ rest, (pyStrip raw).toList =
        beforeFirst (pyStrip raw).toList pipeSep ++ pipeSep ++ rest) ∧
      occursIn pipeSep (beforeFirst (pyStrip raw).toList pipeSep) = false ∧
      deriveTitle raw = pyStrip (String.mk (beforeFirst (pyStrip raw).toList pipeSep))) ∧
    (occursIn pipeSep (pyStrip raw).toList = false →
      occursIn dashSep (pyStrip raw).toList = true →
      (∃ rest, (pyStrip raw).toList =
        beforeFirst (pyStrip raw).toList dashSep ++ dashSep ++ rest) ∧
      occursIn dashSep (beforeFirst (pyStrip raw).toList dashSep) = false ∧
      deriveTitle raw = pyStrip (String.mk (beforeFirst (pyStrip raw).toList dashSep))) ∧
    (occursIn pipeSep (pyStrip raw).toList = false →
      occursIn dashSep (pyStrip raw).toList = false →
      deriveTitle raw = pyStrip raw) := by
  refine ⟨?_, ?_, ?_⟩
  · intro hp
    refine ⟨beforeFirst_decomp pipeSep (by decide) _ hp,
      beforeFirst_no_occurrence pipeSep (by decide) _, ?_⟩
    unfold deriveTitle
    rw [if_pos hp]
  · intro hp hd
    refine ⟨beforeFirst_decomp dashSep (by decide) _ hd,
      beforeFirst_no_occurrence dashSep (by decide) _, ?_⟩
    unfold deriveTitle
    rw [if_neg (by rw [hp]; exact Bool.false_ne_true), if_pos hd]
  · intro hp hd
    unfold deriveTitle
    rw [if_neg (by rw [hp]; exact Bool.false_ne_true),
      if_neg (by rw [hd]; exact Bool.false_ne_true)]

/-- C9 witness: the pipe-precedence branch applied to the concrete title
`"A - B | C"`, which contains both separators. -/
theorem title_pipe_precedence_witness :
    (∃ rest, (pyStrip "A - B | C").toList =
      beforeFirst (pyStrip "A - B | C").toList pipeSep ++ pipeSep ++ rest) ∧
    occursIn pipeSep (beforeFirst (pyStrip "A - B | C").toList pipeSep) = false ∧
    deriveTitle "A - B | C" =
      pyStrip (String.mk (beforeFirst (pyStrip "A - B | C").toList pipeSep)) :=
  (title_pipe_precedence_amended "A - B | C").1 (by decide)

/-! ### C7 — link extraction -/

theorem mem_takeWhile_ne_hash : ∀ (l : List Char) (c : Char),
    c ∈ l.takeWhile (fun x => x ≠ '#') → c ≠ '#' := by
  intro l
  induction l with
  | nil =>
    intro c hc
    simp [List.takeWhile] at hc
  | cons a t ih =>
    intro c hc
    rw [List.takeWhile_cons] at hc
    by_cases ha : a = '#'
    · rw [if_neg (by simp [ha])] at hc
      simp at hc
    · rw [if_pos (by simp [ha])] at hc
      rcases List.mem_cons.mp hc with rfl | hc'
      · exact ha
      · exact ih c hc'

/-- Fragments never survive `urldefrag`: the defragmented URL contains no
`#` character. -/
theorem urldefragFirst_no_hash (s : String) : '#' ∉ (urldefragFirst s).toList := by
  intro h
  have h2 : '#' ∈ s.toList.takeWhile (fun x => x ≠ '#') := h
  exact mem_takeWhile_ne_hash s.toList '#' h2 rfl

/-- C7.  Every URL returned by `extract_links` passes the caller-supplied
validity predicate, contains no fragment, and is the fragment-stripped
resolution of some non-skipped href of the page — so fragment-only,
`javascript:`, `mailto:` and `tel:` targets never contribute an output.
Concretely, on page `https://e.com/base/` the anchors `#x` and `/p#frag`
yield exactly `https://e.com/p`: `#x` is dropped entirely and the fragment of
`/p#frag` is stripped after resolution. -/
theorem extract_links_spec (cur : String) (valid : String → Bool) (hrefs : List String) :
    (∀ u ∈ extract_links cur valid hrefs,
      valid u = true ∧ '#' ∉ u.toList ∧
      ∃ href ∈ hrefs, skipHref href = false ∧
        u = urldefragFirst (urljoinModel cur href)) ∧
    extract_links "https://e.com/base/" (fun _ => true) ["#x", "/p#frag"] =
      ["https://e.com/p"] := by
  refine ⟨?_, by decide⟩
  induction hrefs with
  | nil =>
    intro u hu
    simp [extract_links] at hu
  | cons h t ih =>
    intro u hu
    simp only [extract_links] at hu
    by_cases hs : skipHref h = true
    · rw [if_pos hs] at hu
      obtain ⟨hv, hn, href, hm, h1, h2⟩ := ih u hu
      exact ⟨hv, hn, href, List.mem_cons_of_mem _ hm, h1, h2⟩
    · rw [if_neg hs] at hu
      by_cases hv0 : valid (urldefragFirst (urljoinModel cur h)) = true
      · rw [if_pos hv0] at hu
        rcases List.mem_cons.mp hu with rfl | hu'
        · exact ⟨hv0, urldefragFirst_no_hash _, h, List.mem_cons_self h t,
            Bool.eq_false_iff.mpr hs, rfl⟩
        · obtain ⟨hv, hn, href, hm, h1, h2⟩ := ih u hu'
          exact ⟨hv, hn, href, List.mem_cons_of_mem _ hm, h1, h2⟩
      · rw [if_neg hv0] at hu
        obtain ⟨hv, hn, href, hm, h1, h2⟩ := ih u hu
        exact ⟨hv, hn, href, List.mem_cons_of_mem _ hm, h1, h2⟩

/-- C7 witness: the guarantees instantiated at the one URL the concrete
example produces. -/
theorem extract_links_spec_witness :
    (fun _ => true : String → Bool) "https://e.com/p" = true ∧
    '#' ∉ ("https://e.com/p").toList ∧
    ∃ href ∈ (["#x", "/p#frag"] : List String), skipHref href = false ∧
      "https://e.com/p" = urldefragFirst (urljoinModel "https://e.com/base/" href) :=
  (extract_links_spec "https://e.com/base/" (fun _ => true) ["#x", "/p#frag"]).1
    "https://e.com/p" (by decide)

/-! ### C10 — non-HTML responses leave the engine state untouched -/

/-- C10.  For a 200 response whose (lowercased) `Content-Type` header does not
contain `text/html`, `process_page` saves nothing, fires no page-completed
callback, increments neither `pages_processed` nor `pages_failed`, returns no
links, and only adds the response's content length to `bytes_downloaded`
(first conjunct — the whole state is pinned).  In the crawl loop, the
skipped-non-HTML outcome likewise enqueues nothing: the iteration ends with
only the dequeue and the visited-mark, the frontier gaining no links and both
counters unchanged (second conjunct). -/
theorem process_page_non_html_frame (env : PageEnv) (url : String) (r : Resp)
    (st : PageState)
    (h : occursIn ("text/html").toList
      (pyLower (r.contentTypeHeader.getD "")).toList = false) :
    process_page env url r st = ({ st with bytes := st.bytes + r.content.length }, none) ∧
    (∀ (cenv : CrawlEnv) (s : CrawlState) (u : String) (rest : List String),
      s.queue = u :: rest → u ∉ s.visited → cenv.robotsAllow u = true →
      cenv.fetch u = FetchOut.page ProcOut.skippedNonHtml →
      stepOnce cenv s = { s with queue := rest, inQueue := s.inQueue.erase u, visited := insert u s.visited, order := s.order ++ [u] }) := by
  constructor
  · unfold process_page
    rw [if_pos h]
  · intro cenv s u rest hq hv hra hf
    unfold stepOnce
    rw [hq]
    simp [hv, hra, hf]

/-- C10 witness: a JSON response only bumps the byte counter. -/
theorem process_page_non_html_witness :
    process_page
      { extractText := fun b => b, extractLinks := fun _ _ => [], saveFails := false }
      "https://e.com/x"
      { contentTypeHeader := some "application/json", content := [1, 2], body := "x" }
      { processed := 5, failed := 1, bytes := 100, savedFiles := [],
        completedCallbacks := [] } =
      ({ processed := 5, failed := 1, bytes := 102, savedFiles := [],
         completedCallbacks := [] }, none) :=
  (process_page_non_html_frame
    { extractText := fun b => b, extractLinks := fun _ _ => [], saveFails := false }
    "https://e.com/x"
    { contentTypeHeader := some "application/json", content := [1, 2], body := "x" }
    { processed := 5, failed := 1, bytes := 100, savedFiles := [],
      completedCallbacks := [] } (by decide)).1
